import Mathlib

/-!
Verification development for a rule-based equity trading backtester
(price-path generator, indicator engine, portfolio/ledger primitives,
and three strategy policies).

The Python source works on IEEE floats where `nan` is used as a sentinel
(company failure, undefined indicator ratio).  We embed a float as
`Option ℚ`: `none` plays the role of the `nan` sentinel and every
arithmetic operation propagates it, while comparisons against `nan` are
`false`, exactly as in IEEE / NumPy semantics.  All quantities that the
source manipulates exactly (integers, decimal constants) are modelled by
`ℚ`/`ℤ`/`ℕ`.
-/

/-- A Python/NumPy float value: `none` is the not-a-number sentinel. -/
abbrev PyFloat := Option ℚ

/-- NaN test (`np.isnan`). -/
def pyIsNan (x : PyFloat) : Bool := x.isNone

/-- Float addition: NaN propagates. -/
def pyAdd (x y : PyFloat) : PyFloat :=
  match x, y with
  | some a, some b => some (a + b)
  | _, _ => none

/-- Float subtraction: NaN propagates. -/
def pySub (x y : PyFloat) : PyFloat :=
  match x, y with
  | some a, some b => some (a - b)
  | _, _ => none

/-- Float division: NaN propagates.  (The source never divides by an exact
zero on any reachable path; `ℚ` division by zero yields zero but is never
exercised with a zero denominator.) -/
def pyDiv (x y : PyFloat) : PyFloat :=
  match x, y with
  | some a, some b => some (a / b)
  | _, _ => none

/-- Strict `<` on floats: any comparison with NaN is false. -/
def pyLt (x y : PyFloat) : Bool :=
  match x, y with
  | some a, some b => decide (a < b)
  | _, _ => false

/-- Non-strict `<=` on floats: any comparison with NaN is false. -/
def pyLe (x y : PyFloat) : Bool :=
  match x, y with
  | some a, some b => decide (a ≤ b)
  | _, _ => false

/-- `x > q` against a plain rational threshold; false when `x` is NaN. -/
def pyGtQ (x : PyFloat) (q : ℚ) : Bool :=
  match x with
  | some a => decide (q < a)
  | none => false

/-- `x < q` against a plain rational threshold; false when `x` is NaN. -/
def pyLtQ (x : PyFloat) (q : ℚ) : Bool :=
  match x with
  | some a => decide (a < q)
  | none => false

/-- `x == 0` float equality test; false when `x` is NaN. -/
def pyEqZero (x : PyFloat) : Bool :=
  match x with
  | some a => decide (a = 0)
  | none => false

/-- Sum of a list of floats (`np.sum` order is irrelevant over exact `ℚ`);
NaN propagates. -/
def pySum (l : List PyFloat) : PyFloat :=
  l.foldr pyAdd (some 0)

/-- `np.average` without weights: arithmetic mean; NaN anywhere in the
input makes the result NaN (propagation through the sum).  `np.average`
of an empty array is NaN. -/
def npAverage (l : List PyFloat) : PyFloat :=
  if l = [] then none
  else (pySum l).map (fun s => s / (l.length : ℚ))

/-- `np.average` with weights `w`: weighted mean `Σ xᵢwᵢ / Σ wᵢ`.  The
source requires `w` to have the window's length; we pair elementwise. -/
def npAverageW (l : List PyFloat) (w : List ℚ) : PyFloat :=
  let s : ℚ := w.foldr (· + ·) 0
  (pySum (List.zipWith (fun x c => x.map (fun a => a * c)) l w)).map
    (fun t => t / s)

/-- Binary maximum on floats, NaN propagating (as `np.max` does). -/
def pyMax2 (x y : PyFloat) : PyFloat :=
  match x, y with
  | some a, some b => some (max a b)
  | _, _ => none

/-- Binary minimum on floats, NaN propagating (as `np.min` does). -/
def pyMin2 (x y : PyFloat) : PyFloat :=
  match x, y with
  | some a, some b => some (min a b)
  | _, _ => none

/-- `np.max` of a window: NaN if the window is empty or contains NaN. -/
def npMax (l : List PyFloat) : PyFloat :=
  match l with
  | [] => none
  | x :: xs => xs.foldl pyMax2 x

/-- `np.min` of a window: NaN if the window is empty or contains NaN. -/
def npMin (l : List PyFloat) : PyFloat :=
  match l with
  | [] => none
  | x :: xs => xs.foldl pyMin2 x

/-- Python `int()` applied to a (finite) float: truncation toward zero. -/
def pyInt (q : ℚ) : ℤ :=
  if 0 ≤ q then ⌊q⌋ else ⌈q⌉

/-- Pointwise update of a map modelling a Python list indexed by `ℕ`. -/
def upd {α : Type} (f : ℕ → α) (i : ℕ) (v : α) : ℕ → α :=
  fun j => if j = i then v else f j

theorem upd_same {α : Type} (f : ℕ → α) (i : ℕ) (v : α) : upd f i v i = v := by
  simp [upd]

theorem upd_other {α : Type} (f : ℕ → α) (i j : ℕ) (v : α) (h : j ≠ i) :
    upd f i v j = f j := by
  simp [upd, h]

/-! ### Ledger and `process.py` -/

/-- Transaction type of a ledger line. -/
inductive TType where
  | buy : TType
  | sell : TType
deriving DecidableEq

/-- One ledger line, as written by `log_transaction`: transaction type,
day, stock index, share count, unit price, signed cash flow.  `price` and
`cash` are floats (a sell of a failed stock would format `nan`). -/
structure LedgerEntry where
  ttype : TType
  day : ℕ
  stock : ℕ
  shares : ℤ
  price : PyFloat
  cash : PyFloat
deriving DecidableEq

/-- The ledger file: an append-only sequence of entries. -/
abbrev Ledger := List LedgerEntry

/-- Round `x` to the nearest integer, ties to even — the rounding Python's
fixed-point float formatting performs. -/
def roundHalfEven (x : ℚ) : ℤ :=
  let f := ⌊x⌋
  let r := x - f
  if r < 1/2 then f
  else if 1/2 < r then f + 1
  else if f % 2 = 0 then f else f + 1

/-- Python `"{:.2f}".format` of a (finite) float value: sign, integer
part, and exactly two decimal digits. -/
def fmt2 (q : ℚ) : String :=
  let n := roundHalfEven (q * 100)
  let sign := if q < 0 then "-" else ""
  let a := n.natAbs
  let ip := a / 100
  let fp := a % 100
  sign ++ toString ip ++ "." ++ (if fp < 10 then "0" ++ toString fp else toString fp)

/-- Python `"{:.2f}".format` of a float, including the NaN case. -/
def fmt2f (x : PyFloat) : String :=
  match x with
  | some q => fmt2 q
  | none => "nan"

/-- Text of a transaction type in the ledger file. -/
def TType.text : TType → String
  | .buy => "buy"
  | .sell => "sell"

/-- The line written to the ledger file for one entry:
`"{},{},{},{},{:.2f},{:.2f}".format(transaction_type,date,stock,number_of_shares,price,total_spent)`. -/
def entry_line (e : LedgerEntry) : String :=
  e.ttype.text ++ "," ++ toString e.day ++ "," ++ toString e.stock ++ "," ++
    toString e.shares ++ "," ++ fmt2f e.price ++ "," ++ fmt2f e.cash

/-- `log_transaction` from `process.py`: computes the signed cash flow
(`-(shares*price + fees)` for a buy, `shares*price - fees` for a sell)
and appends one line to the ledger file. -/
def log_transaction (transaction_type : TType) (date stock : ℕ) (number_of_shares : ℤ)
    (price : PyFloat) (fees : ℚ) (ledger_file : Ledger) : Ledger :=
  let total_spent : PyFloat :=
    match transaction_type with
    | .buy => price.map (fun p => -((number_of_shares : ℚ) * p + fees))
    | .sell => price.map (fun p => (number_of_shares : ℚ) * p - fees)
  ledger_file ++ [⟨transaction_type, date, stock, number_of_shares, price, total_spent⟩]

/-- The price matrix handed to the strategies: `price d s` is the share
price of stock `s` on day `d` (`stock_prices[d, s]` in the source), with
`days` rows and `numStocks` columns. -/
structure PriceData where
  days : ℕ
  numStocks : ℕ
  price : ℕ → ℕ → PyFloat

/-- The price column of one stock (`stock_prices[:, s]`). -/
def column (P : PriceData) (s : ℕ) : List PyFloat :=
  (List.range P.days).map (fun d => P.price d s)

/-- A portfolio: share count per stock index. -/
abbrev Portfolio := ℕ → ℤ

/-- `buy` from `process.py`: `shares = int((available_capital - fees) / price)`,
`portfolio[stock] += shares`, log the transaction.  When the price is the
failure marker the source raises (`int(nan)` is a `ValueError`), which we
model as `none`. -/
def buy (date stock : ℕ) (available_capital : ℚ) (stock_prices : PriceData)
    (fees : ℚ) (portfolio : Portfolio) (ledger_file : Ledger) :
    Option (Portfolio × Ledger) :=
  match stock_prices.price date stock with
  | none => none
  | some p =>
    let number_of_shares := pyInt ((available_capital - fees) / p)
    some (upd portfolio stock (portfolio stock + number_of_shares),
      log_transaction .buy date stock number_of_shares (some p) fees ledger_file)

/-- `sell` from `process.py`: sells the entire position
(`shares = portfolio[stock]; portfolio[stock] = 0`) and logs it.  It never
raises, even on a zero position or a failed price. -/
def sell (date stock : ℕ) (stock_prices : PriceData) (fees : ℚ)
    (portfolio : Portfolio) (ledger_file : Ledger) : Portfolio × Ledger :=
  let price := stock_prices.price date stock
  let number_of_shares := portfolio stock
  (upd portfolio stock 0,
    log_transaction .sell date stock number_of_shares price fees ledger_file)

/-- Option-valued left fold used to model the sequential `for` loops that
call `buy` (which can raise). -/
def optFold {σ : Type} (f : ℕ → σ → Option σ) : List ℕ → σ → Option σ
  | [], st => some st
  | i :: is, st =>
    match f i st with
    | none => none
    | some st' => optFold f is st'

/-- `create_portfolio` from `process.py`: start from the zero portfolio
and `buy` at day 0 for every stock, with that stock's allocation. -/
def create_portfolio (available_amounts : ℕ → ℚ) (stock_prices : PriceData)
    (fees : ℚ) (ledger_file : Ledger) : Option (Portfolio × Ledger) :=
  optFold
    (fun i st => buy 0 i (available_amounts i) stock_prices fees st.1 st.2)
    (List.range stock_prices.numStocks) ((fun _ => 0), ledger_file)

/-! ### `data.py` — the price-path generator

The two random draws of the source are passed in as explicit streams:
`inc d` is the gaussian increment `rng.normal(0, volatility)` drawn on day
`d`, and `nws d = (drift, duration)` is the news event returned by
`news(1, volatility)` on day `d` (the no-news case is `(0, 1)`, since
`news` then returns `np.zeros(1)`; otherwise `duration = len(d) ∈ [3,15)`
and `drift` is the constant value of the array). -/

/-- The accumulated news drift scheduled for day `j`
(`totalDrift[j]` at the time day `j`'s price is computed): the sum of the
drifts of every event started on a day `1 ≤ day ≤ j` whose duration still
covers `j`.  The source truncates events at the horizon in place
(`totalDrift[day:] += d[day+duration-days:]`), which only discards cells
at indices `≥ days` that are never read; the cells that are read agree
with this closed form. -/
def totalDrift (nws : ℕ → ℚ × ℕ) (j : ℕ) : ℚ :=
  (((List.range j).map (fun i =>
    let day := i + 1
    if j < day + (nws day).2 then (nws day).1 else 0)).foldr (· + ·) 0)

/-- The price of the generated path on day `d`.  Day 0 is the initial
price; day `d+1` adds the increment and the accumulated drift to the
previous price, and becomes the failure marker when the result is `≤ 0`.
Once the previous day is the failure marker, NaN propagates through the
sum and through the (false) comparison `NewPriceToday <= 0`, leaving the
day at NaN. -/
def priceAt (initial_price : ℚ) (inc : ℕ → ℚ) (nws : ℕ → ℚ × ℕ) : ℕ → PyFloat
  | 0 => some initial_price
  | d + 1 =>
    match priceAt initial_price inc nws d with
    | none => none
    | some p =>
      let NewPriceToday := p + inc (d + 1) + totalDrift nws (d + 1)
      if NewPriceToday ≤ 0 then none else some NewPriceToday

/-- `generate_stock_price` from `data.py`: the length-`days` daily price
path. -/
def generate_stock_price (days : ℕ) (initial_price : ℚ) (inc : ℕ → ℚ)
    (nws : ℕ → ℚ × ℕ) : List PyFloat :=
  (List.range days).map (priceAt initial_price inc nws)

/-! ### `indicators.py` -/

/-- The trailing `n`-window of `stock_price` ending at index `i`
(`stock_price[i-n+1:i+1]` for `i ≥ n-1`). -/
def window (stock_price : List PyFloat) (n i : ℕ) : List PyFloat :=
  (stock_price.drop (i + 1 - n)).take n

/-- The shared shape of the four indicator loops in `indicators.py`
(`for i in range(i0, N): if not np.isnan(stock_price[i]): emit f(i) else:
break`): run `f` at `i, i+1, ...` while the value at the loop index is
not NaN, and stop for good at the first NaN.  Structural recursion on the
remaining iteration count `fuel` (instantiated with `N - i`). -/
def truncMap (xs : List PyFloat) (f : ℕ → PyFloat) : ℕ → ℕ → List PyFloat
  | 0, _ => []
  | fuel + 1, i =>
    match xs.getD i none with
    | none => []
    | some _ => f i :: truncMap xs f fuel (i + 1)

/-- The unweighted loop of `moving_average` from index `i` on: emit the
window average, stop at the first NaN (company failure). -/
def maFrom (stock_price : List PyFloat) (n : ℕ) (i : ℕ) : List PyFloat :=
  truncMap stock_price (fun j => npAverage (window stock_price n j))
    (stock_price.length - i) i

/-- The weighted loop of `moving_average` (the `else` branch of the
source, identical but for the `np.average` call). -/
def maFromW (stock_price : List PyFloat) (n : ℕ) (weights : List ℚ) (i : ℕ) :
    List PyFloat :=
  truncMap stock_price (fun j => npAverageW (window stock_price n j) weights)
    (stock_price.length - i) i

/-- `moving_average` from `indicators.py`.  The loop runs over
`range(n-1, N)`; we require `n ≥ 1` wherever this model is used (for
`n = 0` Python's `range(-1, N)` and negative indexing behave differently). -/
def moving_average (stock_price : List PyFloat) (n : ℕ) (weights : List ℚ) :
    List PyFloat :=
  if weights = [] then maFrom stock_price n (n - 1)
  else maFromW stock_price n weights (n - 1)

/-- Which oscillator `oscillator` computes. -/
inductive OscType where
  | stochastic : OscType
  | RSI : OscType
deriving DecidableEq

/-- One stochastic-oscillator value for the window ending at `i`:
`(price[i] - lo) / (hi - lo)`, or the NaN sentinel when `hi == lo`
(the `0/0` situation). -/
def stochVal (stock_price : List PyFloat) (n i : ℕ) : PyFloat :=
  let highest_price := npMax (window stock_price n i)
  let lowest_price := npMin (window stock_price n i)
  let delta := pySub (stock_price.getD i none) lowest_price
  let delta_max := pySub highest_price lowest_price
  if pyEqZero delta_max then none else pyDiv delta delta_max

/-- One RSI value for the window ending at `i`: split the `n-1`
day-over-day differences into positive and negative parts;
`1 - 1/(1+RS)` when both exist, `0`/`1` when only negative/positive
exist, and the NaN sentinel when neither does. -/
def rsiVal (stock_price : List PyFloat) (n i : ℕ) : PyFloat :=
  let a := i + 1 - n
  let differences := (List.range (n - 1)).map
    (fun j => pySub (stock_price.getD (a + j + 1) none) (stock_price.getD (a + j) none))
  let positive_diff := differences.filter (fun d => pyGtQ d 0)
  let negative_diff := differences.filter (fun d => pyLtQ d 0)
  if positive_diff ≠ [] ∧ negative_diff ≠ [] then
    let postive_average := npAverage positive_diff
    let negative_average := npAverage negative_diff
    let RS := pyDiv postive_average (negative_average.map (fun x => |x|))
    pySub (some 1) (pyDiv (some 1) (pyAdd (some 1) RS))
  else if positive_diff = [] ∧ negative_diff ≠ [] then some 0
  else if positive_diff ≠ [] ∧ negative_diff = [] then some 1
  else none

/-- The stochastic loop of `oscillator`, from index `i` on; like
`moving_average` it stops at the first NaN price. -/
def oscStochFrom (stock_price : List PyFloat) (n : ℕ) (i : ℕ) : List PyFloat :=
  truncMap stock_price (stochVal stock_price n) (stock_price.length - i) i

/-- The RSI loop of `oscillator`, from index `i` on. -/
def oscRsiFrom (stock_price : List PyFloat) (n : ℕ) (i : ℕ) : List PyFloat :=
  truncMap stock_price (rsiVal stock_price n) (stock_price.length - i) i

/-- `oscillator` from `indicators.py` (loop over `range(n-1, N)`; we use
it with `n ≥ 1`, as the source's defaults do). -/
def oscillator (stock_price : List PyFloat) (n : ℕ) (osc_type : OscType) :
    List PyFloat :=
  match osc_type with
  | .stochastic => oscStochFrom stock_price n (n - 1)
  | .RSI => oscRsiFrom stock_price n (n - 1)

/-! ### `strategy.py` -/

/-- Iterations of Python `range(start, stop, step)`, counted down by the
number of remaining elements. -/
def rangeStepAux (step : ℕ) : ℕ → ℕ → List ℕ
  | 0, _ => []
  | fuel + 1, start => start :: rangeStepAux step fuel (start + step)

/-- Python `range(start, stop, step)` for a positive step: the element
count is `⌈(stop - start) / step⌉`. -/
def rangeStep (start stop step : ℕ) : List ℕ :=
  if 0 < step then rangeStepAux step ((stop - start + step - 1) / step) start
  else []

/-- The running state of a policy: the portfolio and the ledger file. -/
structure RunState where
  portfolio : Portfolio
  ledger : Ledger
deriving Inhabited

/-- One step of the terminal flush shared by all three policies: on the
last day, sell a stock if its price is not the failure marker and the
holding is non-zero. -/
def flushStep (P : PriceData) (fees : ℚ) (st : RunState) (stock_number : ℕ) :
    RunState :=
  if pyIsNan (P.price (P.days - 1) stock_number) = false ∧ st.portfolio stock_number ≠ 0 then
    let r := sell (P.days - 1) stock_number P fees st.portfolio st.ledger
    ⟨r.1, r.2⟩
  else st

/-- The terminal flush loop over all stocks. -/
def flushAll (P : PriceData) (fees : ℚ) (st : RunState) : RunState :=
  (List.range P.numStocks).foldl (flushStep P fees) st

/-- One per-stock step of the `random` policy.  The random three-way draw
is supplied by the stream `dec`: `1` buys (unless the stock has failed),
`0` does nothing, anything else sells (unless failed or the holding is
zero). -/
def randStep (P : PriceData) (dec : ℕ → ℕ → ℤ) (amount fees : ℚ)
    (trade_day stock_number : ℕ) (st : RunState) : Option RunState :=
  let decision := dec trade_day stock_number
  if decision = 1 then
    if pyIsNan (P.price trade_day stock_number) = false then
      (buy trade_day stock_number amount P fees st.portfolio st.ledger).map
        (fun r => ⟨r.1, r.2⟩)
    else some st
  else if decision = 0 then some st
  else
    if pyIsNan (P.price trade_day stock_number) = false ∧ st.portfolio stock_number ≠ 0 then
      some (let r := sell trade_day stock_number P fees st.portfolio st.ledger; ⟨r.1, r.2⟩)
    else some st

/-- The `random` policy from `strategy.py`: create the initial portfolio,
trade randomly every `period` days, then flush on the last day. -/
def random_policy (P : PriceData) (dec : ℕ → ℕ → ℤ) (period : ℕ)
    (amount fees : ℚ) : Option RunState :=
  match create_portfolio (fun _ => amount) P fees [] with
  | none => none
  | some pr =>
    (optFold
      (fun trade_day st =>
        optFold (fun stock_number st' => randStep P dec amount fees trade_day stock_number st')
          (List.range P.numStocks) st)
      (rangeStep period P.days period) ⟨pr.1, pr.2⟩).map (flushAll P fees)

/-- The buy condition of `crossing_averages` at `trade_day`:
`FMA[trade_day-m] >= SMA[trade_day-n]` and
`FMA[trade_day-m-1] < SMA[trade_day-n-1]` (fast crosses slow from below).
Out-of-range accesses are modelled as NaN reads; the bounds-safety
theorem shows they never occur when the guard has passed. -/
def buySignal (FMA SMA : List PyFloat) (m n trade_day : ℕ) : Bool :=
  pyLe (SMA.getD (trade_day - n) none) (FMA.getD (trade_day - m) none) &&
  pyLt (FMA.getD (trade_day - m - 1) none) (SMA.getD (trade_day - n - 1) none)

/-- The sell condition of `crossing_averages` at `trade_day`:
`FMA[trade_day-m] <= SMA[trade_day-n]` and
`FMA[trade_day-m-1] > SMA[trade_day-n-1]` (fast crosses slow from above). -/
def sellSignal (FMA SMA : List PyFloat) (m n trade_day : ℕ) : Bool :=
  pyLe (FMA.getD (trade_day - m) none) (SMA.getD (trade_day - n) none) &&
  pyLt (SMA.getD (trade_day - n - 1) none) (FMA.getD (trade_day - m - 1) none)

/-- The nested `if/elif` decision of `crossing_averages` for one stock on
one (non-skipped) day: buy on the buy condition, else sell on the sell
condition when the holding is non-zero, else nothing. -/
def crossAction (FMA SMA : List PyFloat) (m n trade_day : ℕ) (holding : ℤ) :
    Option TType :=
  if buySignal FMA SMA m n trade_day then some .buy
  else if sellSignal FMA SMA m n trade_day then
    if holding ≠ 0 then some .sell else none
  else none

/-- One per-stock step of `crossing_averages`.  The single bounds check of
the source is `trade_day - n > len(SMA[s]) - 1`; over `ℕ` with
`trade_day ≥ n + 1` (always true in the loop) this skip condition is
`len(SMA[s]) ≤ trade_day - n`. -/
def crossStockStep (P : PriceData) (m n : ℕ) (amount fees : ℚ)
    (FMA SMA : ℕ → List PyFloat) (trade_day stock_number : ℕ) (st : RunState) :
    Option RunState :=
  if (SMA stock_number).length ≤ trade_day - n then some st
  else
    match crossAction (FMA stock_number) (SMA stock_number) m n trade_day
        (st.portfolio stock_number) with
    | some .buy =>
      (buy trade_day stock_number amount P fees st.portfolio st.ledger).map
        (fun r => ⟨r.1, r.2⟩)
    | some .sell =>
      some (let r := sell trade_day stock_number P fees st.portfolio st.ledger; ⟨r.1, r.2⟩)
    | none => some st

/-- The `crossing_averages` policy from `strategy.py`: slow and fast
moving averages per stock, a decision loop from day `n+1` on, then the
terminal flush. -/
def crossing_averages (P : PriceData) (m n : ℕ) (amount fees : ℚ) :
    Option RunState :=
  match create_portfolio (fun _ => amount) P fees [] with
  | none => none
  | some pr =>
    let SMA := fun s => moving_average (column P s) n []
    let FMA := fun s => moving_average (column P s) m []
    (optFold
      (fun trade_day st =>
        optFold (crossStockStep P m n amount fees FMA SMA trade_day)
          (List.range P.numStocks) st)
      (rangeStep (n + 1) P.days 1) ⟨pr.1, pr.2⟩).map (flushAll P fees)

/-- The running state of the `momentum` policy: portfolio, per-stock
cool-off counters, ledger. -/
structure MomState where
  portfolio : Portfolio
  cool : ℕ → ℕ
  ledger : Ledger

/-- The first per-day loop of `momentum`: every counter strictly below
`cool_off_period` recovers by one day. -/
def coolIncAll (N cool_off_period : ℕ) (cool : ℕ → ℕ) : ℕ → ℕ :=
  fun s => if s < N ∧ cool s < cool_off_period then cool s + 1 else cool s

/-- One per-stock step of the `momentum` decision loop at `trade_day`.
The bounds check of the source is `trade_day - k > len(osc[s]) - 1`; with
`trade_day ≥ k` this skip condition is `len(osc[s]) ≤ trade_day - k`.
Sell when the smoothed oscillator exceeds `T_over` and the holding is
non-zero; buy when it is below `T_under` and the counter is fully
recovered, and reset the counter to 0.  NaN oscillator values fail both
comparisons. -/
def momStockStep (P : PriceData) (osc : ℕ → List PyFloat) (k : ℕ)
    (T_over T_under amount fees : ℚ) (cool_off_period : ℕ)
    (trade_day stock_number : ℕ) (st : MomState) : Option MomState :=
  if (osc stock_number).length ≤ trade_day - k then some st
  else
    let v := (osc stock_number).getD (trade_day - k) none
    if pyGtQ v T_over ∧ st.portfolio stock_number ≠ 0 then
      some (let r := sell trade_day stock_number P fees st.portfolio st.ledger
            ⟨r.1, st.cool, r.2⟩)
    else if pyLtQ v T_under ∧ st.cool stock_number = cool_off_period then
      (buy trade_day stock_number amount P fees st.portfolio st.ledger).map
        (fun r => ⟨r.1, upd st.cool stock_number 0, r.2⟩)
    else some st

/-- One full day of the `momentum` policy: first the cool-off recovery
loop over all stocks, then the decision loop over all stocks. -/
def momDayStep (P : PriceData) (osc : ℕ → List PyFloat) (k : ℕ)
    (T_over T_under amount fees : ℚ) (cool_off_period : ℕ)
    (trade_day : ℕ) (st : MomState) : Option MomState :=
  optFold
    (momStockStep P osc k T_over T_under amount fees cool_off_period trade_day)
    (List.range P.numStocks)
    ⟨st.portfolio, coolIncAll P.numStocks cool_off_period st.cool, st.ledger⟩

/-- The `momentum` policy from `strategy.py`: per-stock oscillator
smoothed by a 3-day moving average (`period_ave = 3`,
`k = n + period_ave - 2`), cool-off counters initialised to
`cool_off_period`, a decision loop from day `k` on, then the terminal
flush. -/
def momentum (P : PriceData) (osc_type : OscType) (n : ℕ)
    (T_over T_under amount fees : ℚ) (cool_off_period : ℕ) : Option RunState :=
  match create_portfolio (fun _ => amount) P fees [] with
  | none => none
  | some pr =>
    let period_ave := 3
    let osc := fun s =>
      moving_average (oscillator (column P s) n osc_type) period_ave []
    let k := n + period_ave - 2
    (optFold
      (momDayStep P osc k T_over T_under amount fees cool_off_period)
      (rangeStep k P.days 1)
      ⟨pr.1, fun _ => cool_off_period, pr.2⟩).map
      (fun st => flushAll P fees ⟨st.portfolio, st.ledger⟩)

/-! ### Basic lemmas about the loop combinators -/

theorem truncMap_length (xs : List PyFloat) (f : ℕ → PyFloat) :
    ∀ (fuel i j : ℕ), fuel = xs.length - i → i ≤ j → j ≤ xs.length →
      xs.getD j none = none → (∀ l, i ≤ l → l < j → xs.getD l none ≠ none) →
      (truncMap xs f fuel i).length = j - i := by
  intro fuel
  induction fuel with
  | zero =>
    intro i j hfuel hij hjlen _hnone _hdef
    simp only [truncMap, List.length_nil]
    omega
  | succ fuel ih =>
    intro i j hfuel hij hjlen hnone hdef
    by_cases hji : i = j
    · subst hji
      simp only [truncMap]
      rw [hnone]
      simp
    · have hij' : i < j := lt_of_le_of_ne hij hji
      have hi : xs.getD i none ≠ none := hdef i le_rfl hij'
      simp only [truncMap]
      cases hx : xs.getD i none with
      | none => exact absurd hx hi
      | some a =>
        simp only [List.length_cons]
        rw [ih (i + 1) j (by omega) (by omega) hjlen hnone
          (fun l h1 h2 => hdef l (by omega) h2)]
        omega

theorem truncMap_mem (xs : List PyFloat) (f : ℕ → PyFloat) :
    ∀ (fuel i : ℕ) (v : PyFloat), v ∈ truncMap xs f fuel i →
      ∃ j, i ≤ j ∧ j < i + fuel ∧ xs.getD j none ≠ none ∧ v = f j := by
  intro fuel
  induction fuel with
  | zero =>
    intro i v hv
    simp [truncMap] at hv
  | succ fuel ih =>
    intro i v hv
    simp only [truncMap] at hv
    cases hx : xs.getD i none with
    | none => rw [hx] at hv; simp at hv
    | some a =>
      rw [hx] at hv
      rcases List.mem_cons.1 hv with h | h
      · exact ⟨i, le_rfl, by omega, by rw [hx]; exact fun hc => Option.noConfusion hc, h⟩
      · obtain ⟨j, h1, h2, h3, h4⟩ := ih (i + 1) v h
        exact ⟨j, by omega, by omega, h3, h4⟩

theorem optFold_nil {σ : Type} (f : ℕ → σ → Option σ) (st : σ) :
    optFold f [] st = some st := rfl

theorem optFold_cons {σ : Type} (f : ℕ → σ → Option σ) (i : ℕ) (is : List ℕ) (st : σ) :
    optFold f (i :: is) st =
      match f i st with
      | none => none
      | some st' => optFold f is st' := rfl

/-- Invariant preservation through an `optFold` loop. -/
theorem optFold_inv {σ : Type} (f : ℕ → σ → Option σ) (Q : σ → Prop) :
    ∀ (L : List ℕ),
      (∀ i ∈ L, ∀ st st', Q st → f i st = some st' → Q st') →
      ∀ st st', Q st → optFold f L st = some st' → Q st' := by
  intro L
  induction L with
  | nil =>
    intro _ st st' hQ hfold
    rw [optFold_nil] at hfold
    cases hfold
    exact hQ
  | cons i is ih =>
    intro hstep st st' hQ hfold
    rw [optFold_cons] at hfold
    cases hx : f i st with
    | none => rw [hx] at hfold; cases hfold
    | some st1 =>
      rw [hx] at hfold
      exact ih (fun j hj => hstep j (List.mem_cons_of_mem _ hj)) st1 st'
        (hstep i (List.mem_cons_self _ _) st st1 hQ hx) hfold

theorem rangeStepAux_mem (step : ℕ) :
    ∀ (fuel start x : ℕ), x ∈ rangeStepAux step fuel start → start ≤ x := by
  intro fuel
  induction fuel with
  | zero => intro start x hx; simp [rangeStepAux] at hx
  | succ fuel ih =>
    intro start x hx
    simp only [rangeStepAux] at hx
    rcases List.mem_cons.1 hx with h | h
    · omega
    · have := ih (start + step) x h
      omega

theorem rangeStep_one (start stop : ℕ) :
    rangeStep start stop 1 = rangeStepAux 1 (stop - start) start := by
  simp [rangeStep]

/-- The index of the first NaN in a series (its length when there is
none). -/
def firstNone : List PyFloat → ℕ
  | [] => 0
  | none :: _ => 0
  | some _ :: t => firstNone t + 1

theorem firstNone_le_length (xs : List PyFloat) : firstNone xs ≤ xs.length := by
  induction xs with
  | nil => simp [firstNone]
  | cons x t ih =>
    cases x with
    | none => simp [firstNone]
    | some a => simp only [firstNone, List.length_cons]; omega

theorem firstNone_getD (xs : List PyFloat) : xs.getD (firstNone xs) none = none := by
  induction xs with
  | nil => simp [firstNone]
  | cons x t ih =>
    cases x with
    | none => simp [firstNone]
    | some a => simpa [firstNone] using ih

theorem firstNone_lt (xs : List PyFloat) :
    ∀ l, l < firstNone xs → xs.getD l none ≠ none := by
  induction xs with
  | nil => intro l hl; simp [firstNone] at hl
  | cons x t ih =>
    cases x with
    | none => intro l hl; simp [firstNone] at hl
    | some a =>
      intro l hl
      simp only [firstNone] at hl
      cases l with
      | zero => simp
      | succ l' => simpa using ih l' (by omega)

/-- Failure permanence of a price path: a NaN at one day forces NaN at
every later day of the path. -/
def PathPerm (xs : List PyFloat) : Prop :=
  ∀ b, b < xs.length → ∀ a, a ≤ b → xs.getD a none = none → xs.getD b none = none

instance PathPerm.instDec (xs : List PyFloat) : Decidable (PathPerm xs) := by
  unfold PathPerm
  infer_instance

/-! ### Lemmas about `moving_average` -/

theorem window_mem_getD (xs : List PyFloat) (n j : ℕ) (hn : 1 ≤ n)
    (hj : n - 1 ≤ j) (v : PyFloat) (hv : v ∈ window xs n j) :
    ∃ l, l ≤ j ∧ l < xs.length ∧ xs.getD l none = v := by
  obtain ⟨t, ht, hget⟩ := List.mem_iff_getElem.1 hv
  have hlt : t < (xs.drop (j + 1 - n)).length := by
    have := ht
    simp only [window, List.length_take] at this
    omega
  have hidx : (j + 1 - n) + t < xs.length := by
    have := hlt
    simp only [List.length_drop] at this
    omega
  have htn : t < n := by
    have := ht
    simp only [window, List.length_take] at this
    omega
  have h1 : (window xs n j)[t] = (xs.drop (j + 1 - n))[t] := by
    simp only [window]
    exact List.getElem_take _
  have h2 : (xs.drop (j + 1 - n))[t] = xs[(j + 1 - n) + t] :=
    List.getElem_drop _
  refine ⟨(j + 1 - n) + t, by omega, hidx, ?_⟩
  rw [List.getD_eq_getElem?_getD, List.getElem?_eq_getElem hidx]
  rw [← hget, h1, h2]
  rfl

theorem pySum_some (l : List PyFloat) (h : ∀ v ∈ l, v ≠ none) :
    ∃ q, pySum l = some q := by
  induction l with
  | nil => exact ⟨0, rfl⟩
  | cons x t ih =>
    obtain ⟨q, hq⟩ := ih (fun v hv => h v (List.mem_cons_of_mem _ hv))
    cases hx : x with
    | none => exact absurd hx (h x (List.mem_cons_self _ _))
    | some a =>
      refine ⟨a + q, ?_⟩
      have hq' : t.foldr pyAdd (some 0) = some q := hq
      simp only [pySum, List.foldr_cons, hq', hx]
      rfl

theorem npAverage_ne_none (l : List PyFloat) (hne : l ≠ [])
    (h : ∀ v ∈ l, v ≠ none) : npAverage l ≠ none := by
  obtain ⟨q, hq⟩ := pySum_some l h
  simp only [npAverage, if_neg hne, hq, Option.map_some']
  exact fun hc => Option.noConfusion hc

/-- Length of the (unweighted) moving average, given the position `j` of
the first failure marker at or after the loop start `n-1` (with `j` the
series length when there is no failure). -/
theorem moving_average_unweighted (xs : List PyFloat) (n : ℕ) :
    moving_average xs n [] = maFrom xs n (n - 1) := rfl

theorem ma_length (xs : List PyFloat) (n j : ℕ) (hn : 1 ≤ n)
    (hj1 : n - 1 ≤ j) (hj2 : j ≤ xs.length) (hnone : xs.getD j none = none)
    (hdef : ∀ l, n - 1 ≤ l → l < j → xs.getD l none ≠ none) :
    (moving_average xs n []).length = j + 1 - n := by
  have h := truncMap_length xs (fun i => npAverage (window xs n i))
    (xs.length - (n - 1)) (n - 1) j rfl hj1 hj2 hnone hdef
  rw [moving_average_unweighted, maFrom, h]
  omega

/-- Length of the (unweighted) moving average of a failure-permanent
path, in terms of the position of its first failure marker. -/
theorem ma_length_perm (xs : List PyFloat) (n : ℕ) (hn : 1 ≤ n)
    (hperm : PathPerm xs) :
    (moving_average xs n []).length = firstNone xs + 1 - n := by
  by_cases hc : n - 1 ≤ firstNone xs
  · exact ma_length xs n (firstNone xs) hn hc (firstNone_le_length xs)
      (firstNone_getD xs) (fun l _ hl => firstNone_lt xs l hl)
  · by_cases hlen : n - 1 < xs.length
    · have hF : firstNone xs < xs.length := by omega
      have h1 : xs.getD (n - 1) none = none :=
        hperm (n - 1) hlen (firstNone xs) (by omega) (firstNone_getD xs)
      have h := ma_length xs n (n - 1) hn le_rfl (by omega) h1
        (fun l h1 h2 => by omega)
      rw [h]
      omega
    · have h0 : xs.length - (n - 1) = 0 := by omega
      rw [moving_average_unweighted, maFrom, h0]
      simp only [truncMap, List.length_nil]
      omega

/-! ### Lemmas about the generator -/

theorem priceAt_none_succ (initial_price : ℚ) (inc : ℕ → ℚ) (nws : ℕ → ℚ × ℕ)
    (d : ℕ) (h : priceAt initial_price inc nws d = none) :
    priceAt initial_price inc nws (d + 1) = none := by
  simp only [priceAt, h]

theorem priceAt_none_mono (initial_price : ℚ) (inc : ℕ → ℚ) (nws : ℕ → ℚ × ℕ)
    (d e : ℕ) (hde : d ≤ e) (h : priceAt initial_price inc nws d = none) :
    priceAt initial_price inc nws e = none := by
  induction e with
  | zero =>
    have : d = 0 := by omega
    rw [← this]; exact h
  | succ e ih =>
    by_cases hc : d = e + 1
    · rw [← hc]; exact h
    · exact priceAt_none_succ _ _ _ e (ih (by omega))

theorem generate_getD (days : ℕ) (initial_price : ℚ) (inc : ℕ → ℚ)
    (nws : ℕ → ℚ × ℕ) (d : ℕ) (h : d < days) :
    (generate_stock_price days initial_price inc nws).getD d none =
      priceAt initial_price inc nws d := by
  simp [generate_stock_price, List.getD_eq_getElem?_getD, List.getElem?_map,
    List.getElem?_range, h]

/-- The moving average of a failure-permanent path contains no failure
marker: it stops at the first one instead. -/
theorem ma_ne_none (xs : List PyFloat) (n : ℕ) (hn : 1 ≤ n)
    (hperm : PathPerm xs) :
    ∀ v ∈ moving_average xs n [], v ≠ none := by
  intro v hv
  rw [moving_average_unweighted, maFrom] at hv
  obtain ⟨j, hj1, hj2, hj3, hj4⟩ := truncMap_mem xs _ _ _ v hv
  have hjlen : j < xs.length := by omega
  have hwne : window xs n j ≠ [] := by
    have : (window xs n j).length ≠ 0 := by
      simp only [window, List.length_take, List.length_drop]
      omega
    exact fun hc => this (by rw [hc]; rfl)
  have hwdef : ∀ w ∈ window xs n j, w ≠ none := by
    intro w hw hwn
    obtain ⟨l, hl1, hl2, hl3⟩ := window_mem_getD xs n j hn hj1 w hw
    exact hj3 (hperm j hjlen l hl1 (by rw [hl3]; exact hwn))
  rw [hj4]
  exact npAverage_ne_none _ hwne hwdef

/-! ### Lemmas about `buy` and `sell` -/

theorem pyInt_of_nonneg (q : ℚ) (h : 0 ≤ q) : pyInt q = ⌊q⌋ := by
  simp [pyInt, h]

theorem buy_some (date stock : ℕ) (available_capital : ℚ) (P : PriceData)
    (fees : ℚ) (portfolio : Portfolio) (ledger : Ledger) (p : ℚ)
    (hp : P.price date stock = some p) :
    buy date stock available_capital P fees portfolio ledger =
      some (upd portfolio stock
          (portfolio stock + pyInt ((available_capital - fees) / p)),
        ledger ++ [⟨.buy, date, stock, pyInt ((available_capital - fees) / p),
          some p,
          some (-((pyInt ((available_capital - fees) / p) : ℚ) * p + fees))⟩]) := by
  simp [buy, hp, log_transaction]

theorem buy_eq_some (date stock : ℕ) (available_capital : ℚ) (P : PriceData)
    (fees : ℚ) (portfolio : Portfolio) (ledger : Ledger) (r : Portfolio × Ledger)
    (h : buy date stock available_capital P fees portfolio ledger = some r) :
    ∃ p, P.price date stock = some p ∧
      r.2 = ledger ++ [⟨.buy, date, stock, pyInt ((available_capital - fees) / p),
        some p, some (-((pyInt ((available_capital - fees) / p) : ℚ) * p + fees))⟩] ∧
      (∀ j, j ≠ stock → r.1 j = portfolio j) := by
  cases hp : P.price date stock with
  | none => rw [buy, hp] at h; cases h
  | some p =>
    rw [buy_some date stock available_capital P fees portfolio ledger p hp] at h
    cases h
    exact ⟨p, rfl, rfl, fun j hj => upd_other _ _ _ _ hj⟩

theorem sell_eq (date stock : ℕ) (P : PriceData) (fees : ℚ)
    (portfolio : Portfolio) (ledger : Ledger) :
    sell date stock P fees portfolio ledger =
      (upd portfolio stock 0,
        ledger ++ [⟨.sell, date, stock, portfolio stock, P.price date stock,
          (P.price date stock).map
            (fun p => (portfolio stock : ℚ) * p - fees)⟩]) := by
  simp [sell, log_transaction]

/-! ### Claim C1 — failure permanence of generated price paths -/

/-- C1: for every price path produced by `generate_stock_price` (any day
count `D ≥ 1`, initial price `> 0`; the volatility enters only through
the gaussian increment and news streams), if the value at day `d` is the
failure marker, then the value at every later day `d' < D` is also the
failure marker: failure is permanent and monotonic. -/
theorem C1_failure_permanence (days : ℕ) (initial_price : ℚ) (inc : ℕ → ℚ)
    (nws : ℕ → ℚ × ℕ) (hdays : 1 ≤ days) (hp : 0 < initial_price)
    (d d' : ℕ) (hdd : d < d') (hd' : d' < days)
    (hfail : (generate_stock_price days initial_price inc nws).getD d none = none) :
    (generate_stock_price days initial_price inc nws).getD d' none = none := by
  rw [generate_getD days initial_price inc nws d (by omega)] at hfail
  rw [generate_getD days initial_price inc nws d' hd']
  exact priceAt_none_mono initial_price inc nws d d' (by omega) hfail

/-- Witness for C1: a concrete 3-day path with initial price 1 and
constant increment `-2` fails on day 1, and day 2 is then also the
failure marker. -/
theorem C1_witness :
    (generate_stock_price 3 1 (fun _ => -2) (fun _ => (0, 1))).getD 2 none = none :=
  C1_failure_permanence 3 1 (fun _ => -2) (fun _ => (0, 1)) (by norm_num)
    (by norm_num) 1 2 (by norm_num) (by norm_num) (by with_unfolding_all rfl)

/-! ### Claim C9 — exact ledger line formatting -/

/-- C9: `log_transaction('buy', 5, 2, 10, 100, 50, ledger)` appends
exactly the line `buy,5,2,10,100.00,-1050.00`, and
`log_transaction('sell', 8, 1, 10, 100, 20, ledger)` appends exactly the
line `sell,8,1,10,100.00,980.00`: unit price and signed cash flow with
exactly two decimal digits, fields comma-separated in the order type,
day, stock, shares, price, cash flow. -/
theorem C9_ledger_lines :
    (log_transaction .buy 5 2 10 (some 100) 50 []).map entry_line =
      ["buy,5,2,10,100.00,-1050.00"] ∧
    (log_transaction .sell 8 1 10 (some 100) 20 []).map entry_line =
      ["sell,8,1,10,100.00,980.00"] := by
  constructor
  · with_unfolding_all rfl
  · with_unfolding_all rfl

/-! ### Claim C2 — the Buy capital constraint -/

/-- Fixture: a one-day, one-stock price matrix with constant price 10. -/
def Pten : PriceData := ⟨1, 1, fun _ _ => some 10⟩

/-- C2, corrected: for a call to `buy` with price `p > 0` and
`fees ≤ capital` (every call made by the strategies offers
`amount > fees`), the number of shares bought equals
`⌊(capital - fees) / p⌋` and `shares × p + fees ≤ capital`.  As stated —
without the `fees ≤ capital` hypothesis — the claim is false, because
Python's `int()` truncates toward zero rather than flooring (see
`C2_counterexample`). -/
theorem C2_capital_constraint (date stock : ℕ) (capital fees p : ℚ)
    (P : PriceData) (portfolio : Portfolio) (ledger : Ledger)
    (hp : P.price date stock = some p) (hpos : 0 < p) (hcf : fees ≤ capital) :
    pyInt ((capital - fees) / p) = ⌊(capital - fees) / p⌋ ∧
    buy date stock capital P fees portfolio ledger =
      some (upd portfolio stock (portfolio stock + ⌊(capital - fees) / p⌋),
        ledger ++ [⟨.buy, date, stock, ⌊(capital - fees) / p⌋, some p,
          some (-((⌊(capital - fees) / p⌋ : ℚ) * p + fees))⟩]) ∧
    (⌊(capital - fees) / p⌋ : ℚ) * p + fees ≤ capital := by
  have hq : 0 ≤ (capital - fees) / p :=
    div_nonneg (by linarith) (le_of_lt hpos)
  have hfloor : pyInt ((capital - fees) / p) = ⌊(capital - fees) / p⌋ :=
    pyInt_of_nonneg _ hq
  refine ⟨hfloor, ?_, ?_⟩
  · rw [buy_some date stock capital P fees portfolio ledger p hp, hfloor]
  · have h1 : (⌊(capital - fees) / p⌋ : ℚ) ≤ (capital - fees) / p :=
      Int.floor_le _
    have h2 : (⌊(capital - fees) / p⌋ : ℚ) * p ≤ ((capital - fees) / p) * p :=
      mul_le_mul_of_nonneg_right h1 (le_of_lt hpos)
    rw [div_mul_cancel₀ _ (ne_of_gt hpos)] at h2
    linarith

/-- Witness for C2: buying with capital 1000, fees 30 at price 10 buys
`⌊970/10⌋ = 97` shares and spends `97·10 + 30 = 1000 ≤ 1000`. -/
theorem C2_witness :
    pyInt (((1000 : ℚ) - 30) / 10) = ⌊((1000 : ℚ) - 30) / 10⌋ ∧
    buy 0 0 1000 Pten 30 (fun _ => 0) [] =
      some (upd (fun _ => 0) 0 ((0 : ℤ) + ⌊((1000 : ℚ) - 30) / 10⌋),
        [] ++ [⟨.buy, 0, 0, ⌊((1000 : ℚ) - 30) / 10⌋, some 10,
          some (-((⌊((1000 : ℚ) - 30) / 10⌋ : ℚ) * 10 + 30))⟩]) ∧
    (⌊((1000 : ℚ) - 30) / 10⌋ : ℚ) * 10 + 30 ≤ 1000 :=
  C2_capital_constraint 0 0 1000 30 10 Pten (fun _ => 0) [] rfl
    (by norm_num) (by norm_num)

/-- Counterexample for C2 as stated: with capital 0, fees 15, price 10
(price positive, so the claim as stated applies), `int((0-15)/10)` is
`-1`, not `⌊-1.5⌋ = -2`, and the "shares bought" recorded by `buy` spends
`-1·10 + 15 = 5 > 0 = capital`.  So without a `fees ≤ capital`
hypothesis both conjuncts of the claim fail. -/
theorem C2_counterexample :
    ¬ (∀ (date stock : ℕ) (capital fees p : ℚ) (P : PriceData)
        (portfolio : Portfolio) (ledger : Ledger) (r : Portfolio × Ledger),
        P.price date stock = some p → 0 < p →
        buy date stock capital P fees portfolio ledger = some r →
        ∀ e ∈ r.2, e ∈ ledger ∨
          (e.shares = ⌊(capital - fees) / p⌋ ∧
            (e.shares : ℚ) * p + fees ≤ capital)) := by
  intro h
  have h1 : (buy 0 0 0 Pten 15 (fun _ => 0) []).isSome = true := by
    with_unfolding_all rfl
  obtain ⟨r, hr⟩ := Option.isSome_iff_exists.1 h1
  have h2 := h 0 0 0 15 10 Pten (fun _ => 0) [] r rfl (by norm_num) hr
  have h3 : r.2 = [⟨.buy, 0, 0, -1, some 10, some (-5)⟩] := by
    have h4 : (buy 0 0 0 Pten 15 (fun _ => 0) []).map Prod.snd =
        some [⟨.buy, 0, 0, -1, some 10, some (-5)⟩] := by
      with_unfolding_all rfl
    rw [hr] at h4
    simpa using h4
  have h5 := h2 ⟨.buy, 0, 0, -1, some 10, some (-5)⟩
    (by rw [h3]; exact List.mem_singleton_self _)
  rcases h5 with h6 | ⟨h7, h8⟩
  · simp at h6
  · have : (⌊((0 : ℚ) - 15) / 10⌋ : ℤ) = -2 := by with_unfolding_all rfl
    rw [this] at h7
    simp at h7

/-! ### Claim C4 — sell legality and signed cash flows -/

/-- C4, corrected: every sell is legal even on a zero position (it
records a zero-share entry with cash flow `-fees`), every sell entry has
cash flow `shares × price - fees` (positive exactly when the proceeds
exceed the fees — not unconditionally, see `C4_counterexample`), and
every buy entry has cash flow `-(shares × price + fees)`. -/
theorem C4_cash_flows (date stock : ℕ) (P : PriceData) (fees : ℚ)
    (portfolio : Portfolio) (ledger : Ledger) (p : ℚ)
    (hp : P.price date stock = some p) :
    (sell date stock P fees portfolio ledger).2 =
      ledger ++ [⟨.sell, date, stock, portfolio stock, some p,
        some ((portfolio stock : ℚ) * p - fees)⟩] ∧
    (0 < (portfolio stock : ℚ) * p - fees ↔ fees < (portfolio stock : ℚ) * p) ∧
    (portfolio stock = 0 →
      (sell date stock P fees portfolio ledger).2 =
        ledger ++ [⟨.sell, date, stock, 0, some p, some (-fees)⟩]) ∧
    (∀ capital r, buy date stock capital P fees portfolio ledger = some r →
      r.2 = ledger ++ [⟨.buy, date, stock, pyInt ((capital - fees) / p), some p,
        some (-((pyInt ((capital - fees) / p) : ℚ) * p + fees))⟩]) := by
  refine ⟨?_, ?_, ?_, ?_⟩
  · simp [sell_eq, hp]
  · constructor <;> intro h <;> linarith
  · intro h0
    rw [sell_eq, hp, h0]
    norm_num
  · intro capital r hr
    rw [buy_some date stock capital P fees portfolio ledger p hp] at hr
    cases hr
    rfl

/-- Witness for C4: selling stock 0 at price 10 with fees 20 from a zero
position appends the zero-share entry with cash flow `0·10 - 20`. -/
theorem C4_witness :
    (sell 0 0 Pten 20 (fun _ => 0) []).2 =
      [] ++ [⟨.sell, 0, 0, (0 : ℤ), some 10, some (((0 : ℤ) : ℚ) * 10 - 20)⟩] :=
  (C4_cash_flows 0 0 Pten 20 (fun _ => 0) [] 10 rfl).1

/-- Counterexample for C4 as stated: the claim asserts every sell ledger
entry has positive cash flow; but a (legal) sell of a zero position with
fees 20 at price 10 records cash flow `-20 < 0`. -/
theorem C4_counterexample :
    ¬ (∀ (date stock : ℕ) (P : PriceData) (fees : ℚ) (portfolio : Portfolio)
        (ledger : Ledger),
        ∀ e ∈ (sell date stock P fees portfolio ledger).2, e ∈ ledger ∨
          ∃ p c, e.price = some p ∧ e.cash = some c ∧
            c = (e.shares : ℚ) * p - fees ∧ 0 < c) := by
  intro h
  have h2 := h 0 0 Pten 20 (fun _ => 0) []
  have hsell : (sell 0 0 Pten 20 (fun _ => 0) []).2 =
      [⟨.sell, 0, 0, 0, some 10, some (-20)⟩] := by
    with_unfolding_all rfl
  have h3 := h2 ⟨.sell, 0, 0, 0, some 10, some (-20)⟩
    (by rw [hsell]; exact List.mem_singleton_self _)
  rcases h3 with h4 | ⟨p, c, _hp, hc, _hf, hcpos⟩
  · simp at h4
  · have hc' : (-20 : ℚ) = c := Option.some.inj hc
    rw [← hc'] at hcpos
    norm_num at hcpos

/-! ### Claim C6 — moving-average length bound and truncation -/

/-- C6: for a failure-permanent price sequence of length `N` and window
`n ≥ 1`: with no failure marker the moving average has length `N+1-n`
(the `ℕ`-truncated form of `N-n+1`); with the first failure marker at
index `f < N` it has length `f+1-n` (that is, `max(0, f-n+1)`); and the
returned series never contains a failure marker. -/
theorem C6_ma_length_bound (xs : List PyFloat) (n : ℕ) (hn : 1 ≤ n)
    (hperm : PathPerm xs) :
    ((∀ l, l < xs.length → xs.getD l none ≠ none) →
      (moving_average xs n []).length = xs.length + 1 - n) ∧
    (∀ f, f < xs.length → xs.getD f none = none →
      (∀ l, l < f → xs.getD l none ≠ none) →
      (moving_average xs n []).length = f + 1 - n) ∧
    (∀ v ∈ moving_average xs n [], v ≠ none) := by
  refine ⟨?_, ?_, ma_ne_none xs n hn hperm⟩
  · intro hdef
    by_cases hc : n - 1 ≤ xs.length
    · exact ma_length xs n xs.length hn hc le_rfl
        (List.getD_eq_default _ _ le_rfl) (fun l _ hl => hdef l hl)
    · rw [moving_average_unweighted, maFrom, show xs.length - (n - 1) = 0 by omega]
      simp only [truncMap, List.length_nil]
      omega
  · intro f hf hnone hdef
    by_cases hc : n - 1 ≤ f
    · exact ma_length xs n f hn hc (by omega) hnone (fun l _ hl => hdef l hl)
    · by_cases hlen : n - 1 < xs.length
      · have h1 : xs.getD (n - 1) none = none :=
          hperm (n - 1) hlen f (by omega) hnone
        have h := ma_length xs n (n - 1) hn le_rfl (by omega) h1
          (fun l hl1 hl2 => by omega)
        rw [h]
        omega
      · rw [moving_average_unweighted, maFrom, show xs.length - (n - 1) = 0 by omega]
        simp only [truncMap, List.length_nil]
        omega

/-- Fixture for C6: a 5-day path failing at day 3. -/
def xsC6 : List PyFloat := [some 1, some 2, some 3, none, none]

/-- Witness for C6: the 2-day moving average of a path whose first
failure is at index 3 has length `3 + 1 - 2 = 2`. -/
theorem C6_witness : (moving_average xsC6 2 []).length = 3 + 1 - 2 :=
  (C6_ma_length_bound xsC6 2 (by norm_num) (by decide)).2.1 3 (by decide)
    (by decide) (by decide)

/-! ### Claim C7 — crossing detection determinism -/

/-- C7: in the `crossing_averages` decision (indices aligned as fast
index `= day - m`, slow index `= day - n`), given defined series values,
a buy triggers iff `fast[day] ≥ slow[day]` and `fast[day-1] < slow[day-1]`,
a sell triggers iff `fast[day] ≤ slow[day]`, `fast[day-1] > slow[day-1]`
and the holding is non-zero, and the buy and sell conditions never hold
together. -/
theorem C7_crossing_determinism (FMA SMA : List PyFloat) (m n trade_day : ℕ)
    (holding : ℤ) (a b a' b' : ℚ)
    (ha : FMA.getD (trade_day - m) none = some a)
    (hb : SMA.getD (trade_day - n) none = some b)
    (ha' : FMA.getD (trade_day - m - 1) none = some a')
    (hb' : SMA.getD (trade_day - n - 1) none = some b') :
    (crossAction FMA SMA m n trade_day holding = some .buy ↔ (b ≤ a ∧ a' < b')) ∧
    (crossAction FMA SMA m n trade_day holding = some .sell ↔
      (a ≤ b ∧ b' < a' ∧ holding ≠ 0)) ∧
    ¬ (buySignal FMA SMA m n trade_day = true ∧
       sellSignal FMA SMA m n trade_day = true) := by
  have hbuyB : buySignal FMA SMA m n trade_day = decide (b ≤ a ∧ a' < b') := by
    simp only [buySignal]
    rw [hb, ha, ha', hb']
    simp [pyLe, pyLt, Bool.decide_and]
  have hsellB : sellSignal FMA SMA m n trade_day = decide (a ≤ b ∧ b' < a') := by
    simp only [sellSignal]
    rw [ha, hb, hb', ha']
    simp [pyLe, pyLt, Bool.decide_and]
  have hca : crossAction FMA SMA m n trade_day holding =
      (if b ≤ a ∧ a' < b' then some TType.buy
       else if a ≤ b ∧ b' < a' then (if holding ≠ 0 then some TType.sell else none)
       else none) := by
    simp only [crossAction, hbuyB, hsellB, decide_eq_true_eq]
  refine ⟨?_, ?_, ?_⟩
  · rw [hca]
    by_cases hB : b ≤ a ∧ a' < b'
    · simp [hB]
    · simp only [if_neg hB]
      by_cases hS : a ≤ b ∧ b' < a'
      · simp only [if_pos hS]
        by_cases hH : holding ≠ 0 <;> simp [hH, hB]
      · simp [hS, hB]
  · rw [hca]
    by_cases hB : b ≤ a ∧ a' < b'
    · simp only [if_pos hB]
      constructor
      · intro hcon; cases hcon
      · rintro ⟨h1, h2, h3⟩; exact absurd hB.2 (by linarith)
    · simp only [if_neg hB]
      by_cases hS : a ≤ b ∧ b' < a'
      · simp only [if_pos hS]
        by_cases hH : holding ≠ 0
        · simp only [if_pos hH]
          constructor
          · intro _; exact ⟨hS.1, hS.2, hH⟩
          · intro _; trivial
        · simp only [if_neg hH]
          constructor
          · intro hcon; cases hcon
          · rintro ⟨h1, h2, h3⟩; exact absurd h3 hH
      · simp only [if_neg hS]
        constructor
        · intro hcon; cases hcon
        · rintro ⟨h1, h2, h3⟩; exact absurd ⟨h1, h2⟩ hS
  · intro ⟨h1, h2⟩
    rw [hbuyB] at h1; rw [hsellB] at h2
    have hB := of_decide_eq_true h1
    have hS := of_decide_eq_true h2
    have := hB.2
    have := hS.2
    linarith

/-- Witness for C7: with fast values `5` (at aligned day index) and `1`
(previous) against slow values `3` and `2`, the decision function
produces a buy. -/
theorem C7_witness :
    (crossAction [some 0, some 1, some 5] [some 2, some 3] 1 2 3 0 = some .buy ↔
      ((3 : ℚ) ≤ 5 ∧ (1 : ℚ) < 2)) ∧
    (crossAction [some 0, some 1, some 5] [some 2, some 3] 1 2 3 0 = some .sell ↔
      ((5 : ℚ) ≤ 3 ∧ (2 : ℚ) < 1 ∧ (0 : ℤ) ≠ 0)) ∧
    ¬ (buySignal [some 0, some 1, some 5] [some 2, some 3] 1 2 3 = true ∧
       sellSignal [some 0, some 1, some 5] [some 2, some 3] 1 2 3 = true) :=
  C7_crossing_determinism [some 0, some 1, some 5] [some 2, some 3] 1 2 3 0
    5 3 1 2 rfl rfl rfl rfl

/-! ### Claim C10 — bounds safety of the crossing-averages loop -/

/-- C10: with windows `1 ≤ m < n` and a failure-permanent price column,
whenever the single bounds check of the loop passes (the source's
`trade_day - n > len(SMA[s]) - 1` fails, i.e. over `ℕ` with
`trade_day ≥ n + 1`, `trade_day - n < len(SMA[s])`), all four indicator
accesses — `FMA[s][trade_day-m]`, `FMA[s][trade_day-m-1]`,
`SMA[s][trade_day-n]`, `SMA[s][trade_day-n-1]` — are within the bounds of
their (possibly failure-truncated) series, even though the fast series'
length is never checked. -/
theorem C10_bounds_safety (P : PriceData) (s m n trade_day : ℕ)
    (hm : 1 ≤ m) (hmn : m < n) (hperm : PathPerm (column P s))
    (htd : n + 1 ≤ trade_day)
    (hguard : trade_day - n < (moving_average (column P s) n []).length) :
    trade_day - m < (moving_average (column P s) m []).length ∧
    trade_day - m - 1 < (moving_average (column P s) m []).length ∧
    trade_day - n < (moving_average (column P s) n []).length ∧
    trade_day - n - 1 < (moving_average (column P s) n []).length := by
  have hS := ma_length_perm (column P s) n (by omega) hperm
  have hF := ma_length_perm (column P s) m (by omega) hperm
  have hFlen := firstNone_le_length (column P s)
  rw [hS] at hguard
  rw [hS, hF]
  omega

/-- Fixture for C10: a four-day strictly rising single-stock matrix. -/
def Pfour : PriceData := ⟨4, 1, fun d _ => some ((d : ℚ) + 1)⟩

/-- Witness for C10: with `m = 1`, `n = 2`, `trade_day = 3` on a four-day
healthy path, the guard passes and all four accesses are in bounds. -/
theorem C10_witness :
    3 - 1 < (moving_average (column Pfour 0) 1 []).length ∧
    3 - 1 - 1 < (moving_average (column Pfour 0) 1 []).length ∧
    3 - 2 < (moving_average (column Pfour 0) 2 []).length ∧
    3 - 2 - 1 < (moving_average (column Pfour 0) 2 []).length :=
  C10_bounds_safety Pfour 0 1 2 3 (by norm_num) (by norm_num) (by decide)
    (by norm_num) (by decide)

/-! ### Claim C8 — terminal flush -/

theorem flushStep_zero_pres (P : PriceData) (fees : ℚ) (st : RunState)
    (t j : ℕ) (h : st.portfolio j = 0) :
    (flushStep P fees st t).portfolio j = 0 := by
  unfold flushStep
  split
  · simp only [sell]
    by_cases hj : j = t
    · subst hj; exact upd_same _ _ _
    · rw [upd_other _ _ _ _ hj]; exact h
  · exact h

theorem flushStep_self (P : PriceData) (fees : ℚ) (st : RunState) (t : ℕ)
    (h : pyIsNan (P.price (P.days - 1) t) = false) :
    (flushStep P fees st t).portfolio t = 0 := by
  unfold flushStep
  split
  · simp only [sell]
    exact upd_same _ _ _
  · rename_i hcond
    by_cases h0 : st.portfolio t = 0
    · exact h0
    · exact absurd ⟨h, h0⟩ hcond

theorem flushFold_zero_pres (P : PriceData) (fees : ℚ) :
    ∀ (L : List ℕ) (st : RunState) (j : ℕ), st.portfolio j = 0 →
      (L.foldl (flushStep P fees) st).portfolio j = 0 := by
  intro L
  induction L with
  | nil => intro st j h; exact h
  | cons t ts ih =>
    intro st j h
    exact ih _ j (flushStep_zero_pres P fees st t j h)

theorem flushFold_zero (P : PriceData) (fees : ℚ) :
    ∀ (L : List ℕ) (st : RunState) (s : ℕ), s ∈ L →
      pyIsNan (P.price (P.days - 1) s) = false →
      (L.foldl (flushStep P fees) st).portfolio s = 0 := by
  intro L
  induction L with
  | nil => intro st s hs; simp at hs
  | cons t ts ih =>
    intro st s hs hnan
    rcases List.mem_cons.1 hs with h | h
    · subst h
      exact flushFold_zero_pres P fees ts _ s (flushStep_self P fees st s hnan)
    · exact ih _ s h hnan

theorem flushAll_zero (P : PriceData) (fees : ℚ) (st : RunState) (s : ℕ)
    (hs : s < P.numStocks) (hnan : pyIsNan (P.price (P.days - 1) s) = false) :
    (flushAll P fees st).portfolio s = 0 :=
  flushFold_zero P fees (List.range P.numStocks) st s (List.mem_range.2 hs) hnan

/-- C8: after any complete run of any of the three policies (Random,
CrossingAverages, Momentum), every stock whose price on the final day is
not the failure marker has a final portfolio holding of zero; only failed
stocks may retain a non-zero holding. -/
theorem C8_terminal_flush :
    (∀ (P : PriceData) (dec : ℕ → ℕ → ℤ) (period : ℕ) (amount fees : ℚ)
        (st : RunState), random_policy P dec period amount fees = some st →
      ∀ s, s < P.numStocks → pyIsNan (P.price (P.days - 1) s) = false →
        st.portfolio s = 0) ∧
    (∀ (P : PriceData) (m n : ℕ) (amount fees : ℚ) (st : RunState),
        crossing_averages P m n amount fees = some st →
      ∀ s, s < P.numStocks → pyIsNan (P.price (P.days - 1) s) = false →
        st.portfolio s = 0) ∧
    (∀ (P : PriceData) (osc_type : OscType) (n : ℕ)
        (T_over T_under amount fees : ℚ) (cool_off_period : ℕ) (st : RunState),
        momentum P osc_type n T_over T_under amount fees cool_off_period = some st →
      ∀ s, s < P.numStocks → pyIsNan (P.price (P.days - 1) s) = false →
        st.portfolio s = 0) := by
  refine ⟨?_, ?_, ?_⟩
  · intro P dec period amount fees st hrun s hs hnan
    rw [random_policy] at hrun
    cases hcp : create_portfolio (fun _ => amount) P fees [] with
    | none => rw [hcp] at hrun; cases hrun
    | some pr =>
      rw [hcp] at hrun
      obtain ⟨st1, _hfold, hflush⟩ := Option.map_eq_some'.1 hrun
      rw [← hflush]
      exact flushAll_zero P fees st1 s hs hnan
  · intro P m n amount fees st hrun s hs hnan
    rw [crossing_averages] at hrun
    cases hcp : create_portfolio (fun _ => amount) P fees [] with
    | none => rw [hcp] at hrun; cases hrun
    | some pr =>
      rw [hcp] at hrun
      obtain ⟨st1, _hfold, hflush⟩ := Option.map_eq_some'.1 hrun
      rw [← hflush]
      exact flushAll_zero P fees st1 s hs hnan
  · intro P osc_type n T_over T_under amount fees cool_off_period st hrun s hs hnan
    rw [momentum] at hrun
    cases hcp : create_portfolio (fun _ => amount) P fees [] with
    | none => rw [hcp] at hrun; cases hrun
    | some pr =>
      rw [hcp] at hrun
      obtain ⟨st1, _hfold, hflush⟩ := Option.map_eq_some'.1 hrun
      rw [← hflush]
      exact flushAll_zero P fees ⟨st1.portfolio, st1.ledger⟩ s hs hnan

/-- Fixture for C8: a healthy two-day, one-stock matrix with price 1. -/
def Ptwo : PriceData := ⟨2, 1, fun _ _ => some 1⟩

/-- Witness for C8: on the two-day fixture, all three policies end with a
zero holding in stock 0 (which never fails). -/
theorem C8_witness :
    (random_policy Ptwo (fun _ _ => 0) 7 30 10).map (fun st => st.portfolio 0) =
      some 0 ∧
    (crossing_averages Ptwo 1 2 30 10).map (fun st => st.portfolio 0) = some 0 ∧
    (momentum Ptwo .stochastic 2 (4/5) (1/5) 30 10 10).map
      (fun st => st.portfolio 0) = some 0 := by
  refine ⟨?_, ?_, ?_⟩
  · have h1 : (random_policy Ptwo (fun _ _ => 0) 7 30 10).isSome = true := by
      with_unfolding_all rfl
    obtain ⟨st, hst⟩ := Option.isSome_iff_exists.1 h1
    rw [hst, Option.map_some']
    rw [C8_terminal_flush.1 Ptwo (fun _ _ => 0) 7 30 10 st hst 0 (by decide) rfl]
  · have h1 : (crossing_averages Ptwo 1 2 30 10).isSome = true := by
      with_unfolding_all rfl
    obtain ⟨st, hst⟩ := Option.isSome_iff_exists.1 h1
    rw [hst, Option.map_some']
    rw [C8_terminal_flush.2.1 Ptwo 1 2 30 10 st hst 0 (by decide) rfl]
  · have h1 : (momentum Ptwo .stochastic 2 (4/5) (1/5) 30 10 10).isSome = true := by
      with_unfolding_all rfl
    obtain ⟨st, hst⟩ := Option.isSome_iff_exists.1 h1
    rw [hst, Option.map_some']
    rw [C8_terminal_flush.2.2 Ptwo .stochastic 2 (4/5) (1/5) 30 10 10 st hst 0
      (by decide) rfl]

/-! ### Claim C5 — cool-off enforcement in the Momentum policy -/

/-- The cool-off gap property over the decision-loop buy entries (the
day-0 portfolio-creation buys are excluded by the `1 ≤ day` guards): any
two buys of the same stock are at least `cool_off_period` days apart. -/
def GapOK (cool_off_period : ℕ) (l : Ledger) : Prop :=
  ∀ e1 ∈ l, ∀ e2 ∈ l, e1.ttype = .buy → e2.ttype = .buy →
    e1.stock = e2.stock → 1 ≤ e1.day → 1 ≤ e2.day → e1.day < e2.day →
    e1.day + cool_off_period ≤ e2.day

/-- Momentum-loop invariant at the start of day `t` (before the cool-off
recovery loop): every loop-buy entry is older than `t` and its stock's
counter is small enough that `day + cool < t`, and the gap property holds
so far. -/
def MomInv (cool_off_period t : ℕ) (st : MomState) : Prop :=
  (∀ e ∈ st.ledger, e.ttype = .buy → 1 ≤ e.day →
    e.day + st.cool e.stock < t ∧ e.day < t) ∧
  GapOK cool_off_period st.ledger

/-- Momentum-loop invariant during day `t`'s decision loop (after the
recovery loop): `day + cool ≤ t` and `day ≤ t` for loop-buy entries. -/
def MomMid (cool_off_period t : ℕ) (st : MomState) : Prop :=
  (∀ e ∈ st.ledger, e.ttype = .buy → 1 ≤ e.day →
    e.day + st.cool e.stock ≤ t ∧ e.day ≤ t) ∧
  GapOK cool_off_period st.ledger

theorem GapOK_append_sell (cool_off_period : ℕ) (l : Ledger) (e : LedgerEntry)
    (hl : GapOK cool_off_period l) (he : e.ttype = .sell) :
    GapOK cool_off_period (l ++ [e]) := by
  intro e1 h1 e2 h2 hb1 hb2 hs hd1 hd2 hlt
  rcases List.mem_append.1 h1 with h1' | h1'
  · rcases List.mem_append.1 h2 with h2' | h2'
    · exact hl e1 h1' e2 h2' hb1 hb2 hs hd1 hd2 hlt
    · rw [List.mem_singleton.1 h2'] at hb2
      rw [he] at hb2
      cases hb2
  · rw [List.mem_singleton.1 h1'] at hb1
    rw [he] at hb1
    cases hb1

theorem coolIncAll_le (N cool_off_period : ℕ) (cool : ℕ → ℕ) (s : ℕ) :
    coolIncAll N cool_off_period cool s ≤ cool s + 1 := by
  unfold coolIncAll
  split <;> omega

theorem momInv_to_mid (cool_off_period t N : ℕ) (st : MomState)
    (h : MomInv cool_off_period t st) :
    MomMid cool_off_period t
      ⟨st.portfolio, coolIncAll N cool_off_period st.cool, st.ledger⟩ := by
  refine ⟨?_, h.2⟩
  intro e he hb hd
  obtain ⟨h1, h2⟩ := h.1 e he hb hd
  have h3 := coolIncAll_le N cool_off_period st.cool e.stock
  exact ⟨by simp only; omega, by omega⟩

theorem momStockStep_mid (P : PriceData) (osc : ℕ → List PyFloat) (k : ℕ)
    (T_over T_under amount fees : ℚ) (cool_off_period : ℕ)
    (trade_day stock_number : ℕ) (st st' : MomState)
    (hmid : MomMid cool_off_period trade_day st)
    (hstep : momStockStep P osc k T_over T_under amount fees cool_off_period
      trade_day stock_number st = some st') :
    MomMid cool_off_period trade_day st' := by
  unfold momStockStep at hstep
  split at hstep
  · cases hstep
    exact hmid
  · simp only [] at hstep
    split at hstep
    · -- sell branch: the appended entry is a sell
      cases hstep
      rw [sell_eq]
      refine ⟨?_, GapOK_append_sell _ _ _ hmid.2 rfl⟩
      intro e he hb hd
      rcases List.mem_append.1 he with he' | he'
      · exact hmid.1 e he' hb hd
      · rw [List.mem_singleton.1 he'] at hb
        cases hb
    · split at hstep
      · -- buy branch: counter is fully recovered and is reset to 0
        rename_i hcond
        obtain ⟨_hv, hcool⟩ := hcond
        cases hb : buy trade_day stock_number amount P fees st.portfolio
            st.ledger with
        | none => rw [hb] at hstep; cases hstep
        | some r =>
          rw [hb, Option.map_some'] at hstep
          cases hstep
          obtain ⟨p, _hp, hled, _hpf⟩ := buy_eq_some _ _ _ _ _ _ _ _ hb
          constructor
          · intro e he hbuy hd
            rw [hled] at he
            dsimp only at he ⊢
            rcases List.mem_append.1 he with he' | he'
            · obtain ⟨h1, h2⟩ := hmid.1 e he' hbuy hd
              by_cases hes : e.stock = stock_number
              · rw [hes]
                simp only [upd_same]
                omega
              · rw [upd_other _ _ _ _ hes]
                exact ⟨h1, h2⟩
            · rw [List.mem_singleton.1 he']
              simp only [upd_same]
              omega
          · rw [hled]
            intro e1 h1 e2 h2 hb1 hb2 hs hd1 hd2 hlt
            rcases List.mem_append.1 h1 with h1' | h1'
            · rcases List.mem_append.1 h2 with h2' | h2'
              · exact hmid.2 e1 h1' e2 h2' hb1 hb2 hs hd1 hd2 hlt
              · -- e2 is the new buy at `trade_day` for `stock_number`
                have he2 := List.mem_singleton.1 h2'
                have hstock : e1.stock = stock_number := by
                  rw [hs, he2]
                obtain ⟨h3, _h4⟩ := hmid.1 e1 h1' hb1 hd1
                rw [hstock, hcool] at h3
                rw [he2]
                exact h3
            · -- e1 is the new buy: but every other entry is at most
              -- `trade_day`, contradicting `e1.day < e2.day`
              have he1 := List.mem_singleton.1 h1'
              rcases List.mem_append.1 h2 with h2' | h2'
              · obtain ⟨_h3, h4⟩ := hmid.1 e2 h2' hb2 hd2
                rw [he1] at hlt
                simp only at hlt
                omega
              · rw [List.mem_singleton.1 h2'] at hlt
                rw [he1] at hlt
                exact absurd hlt (lt_irrefl _)
      · cases hstep
        exact hmid

theorem momMid_to_inv (cool_off_period t : ℕ) (st : MomState)
    (h : MomMid cool_off_period t st) : MomInv cool_off_period (t + 1) st := by
  refine ⟨?_, h.2⟩
  intro e he hb hd
  obtain ⟨h1, h2⟩ := h.1 e he hb hd
  omega

theorem momDayStep_inv (P : PriceData) (osc : ℕ → List PyFloat) (k : ℕ)
    (T_over T_under amount fees : ℚ) (cool_off_period : ℕ) (t : ℕ)
    (st st' : MomState) (hinv : MomInv cool_off_period t st)
    (hstep : momDayStep P osc k T_over T_under amount fees cool_off_period t st =
      some st') : MomInv cool_off_period (t + 1) st' := by
  apply momMid_to_inv
  unfold momDayStep at hstep
  exact optFold_inv _ (MomMid cool_off_period t) _
    (fun i _ s1 s2 h1 h2 =>
      momStockStep_mid P osc k T_over T_under amount fees cool_off_period t i
        s1 s2 h1 h2)
    _ st' (momInv_to_mid cool_off_period t P.numStocks st hinv) hstep

theorem momLoop_inv (P : PriceData) (osc : ℕ → List PyFloat) (k : ℕ)
    (T_over T_under amount fees : ℚ) (cool_off_period : ℕ) :
    ∀ (len t : ℕ) (st st' : MomState), MomInv cool_off_period t st →
      optFold (momDayStep P osc k T_over T_under amount fees cool_off_period)
        (rangeStepAux 1 len t) st = some st' →
      MomInv cool_off_period (t + len) st' := by
  intro len
  induction len with
  | zero =>
    intro t st st' hinv hfold
    rw [show rangeStepAux 1 0 t = [] from rfl, optFold_nil] at hfold
    cases hfold
    exact hinv
  | succ len ih =>
    intro t st st' hinv hfold
    rw [show rangeStepAux 1 (len + 1) t = t :: rangeStepAux 1 len (t + 1)
      from rfl, optFold_cons] at hfold
    cases hday : momDayStep P osc k T_over T_under amount fees cool_off_period
        t st with
    | none => rw [hday] at hfold; cases hfold
    | some st1 =>
      rw [hday] at hfold
      have h1 := momDayStep_inv P osc k T_over T_under amount fees
        cool_off_period t st st1 hinv hday
      have h2 := ih (t + 1) st1 st' h1 hfold
      rw [show t + 1 + len = t + (len + 1) by omega] at h2
      exact h2

theorem create_portfolio_day0 (available_amounts : ℕ → ℚ) (P : PriceData)
    (fees : ℚ) (pr : Portfolio × Ledger)
    (h : create_portfolio available_amounts P fees [] = some pr) :
    ∀ e ∈ pr.2, e.day = 0 := by
  unfold create_portfolio at h
  have := optFold_inv
    (fun i st => buy 0 i (available_amounts i) P fees st.1 st.2)
    (fun st => ∀ e ∈ st.2, e.day = 0) (List.range P.numStocks)
    (fun i _ st st' hQ hstep => by
      obtain ⟨p, _hp, hled, _hpf⟩ := buy_eq_some _ _ _ _ _ _ _ _ hstep
      intro e he
      rw [hled] at he
      rcases List.mem_append.1 he with he' | he'
      · exact hQ e he'
      · rw [List.mem_singleton.1 he'])
    ((fun _ => 0), []) pr (by intro e he; simp at he) h
  exact this

theorem flushFold_gapOK (P : PriceData) (fees : ℚ) (cool_off_period : ℕ) :
    ∀ (L : List ℕ) (st : RunState), GapOK cool_off_period st.ledger →
      GapOK cool_off_period ((L.foldl (flushStep P fees) st).ledger) := by
  intro L
  induction L with
  | nil => intro st h; exact h
  | cons t ts ih =>
    intro st h
    apply ih
    unfold flushStep
    split
    · rw [sell_eq]
      exact GapOK_append_sell _ _ _ h rfl
    · exact h

/-- C5, corrected: in any Momentum run, among the buy entries produced by
the decision loop (all of which have day ≥ 1; the day-0 buys written by
`create_portfolio` are excluded — as stated the claim fails on them, see
`C5_counterexample`), no two buys of the same stock are fewer than
`cool_off_period` days apart. -/
theorem C5_cool_off_enforcement (P : PriceData) (osc_type : OscType) (n : ℕ)
    (T_over T_under amount fees : ℚ) (cool_off_period : ℕ) (st : RunState)
    (hrun : momentum P osc_type n T_over T_under amount fees cool_off_period =
      some st) :
    GapOK cool_off_period st.ledger := by
  rw [momentum] at hrun
  cases hcp : create_portfolio (fun _ => amount) P fees [] with
  | none => rw [hcp] at hrun; cases hrun
  | some pr =>
    rw [hcp] at hrun
    obtain ⟨st1, hfold, hflush⟩ := Option.map_eq_some'.1 hrun
    rw [rangeStep_one] at hfold
    have hinit : MomInv cool_off_period (n + 3 - 2)
        ⟨pr.1, fun _ => cool_off_period, pr.2⟩ := by
      have hday0 := create_portfolio_day0 _ _ _ _ hcp
      constructor
      · intro e he _hb hd
        rw [hday0 e he] at hd
        omega
      · intro e1 h1 e2 h2 _ _ _ hd1 _ _
        rw [hday0 e1 h1] at hd1
        omega
    have hloop := momLoop_inv P _ _ T_over T_under amount fees cool_off_period
      (P.days - (n + 3 - 2)) (n + 3 - 2) _ st1 hinit hfold
    rw [← hflush]
    exact flushFold_gapOK P fees cool_off_period (List.range P.numStocks)
      ⟨st1.portfolio, st1.ledger⟩ hloop.2

/-- Fixture for C5's counterexample: five decreasing prices, one stock. -/
def Pfive : PriceData := ⟨5, 1, fun d _ => some (([5, 4, 3, 2, 1] : List ℚ).getD d 0)⟩

/-- Fixture for C5's witness: six decreasing prices, one stock. -/
def Psix : PriceData := ⟨6, 1, fun d _ => some (([6, 5, 4, 3, 2, 1] : List ℚ).getD d 0)⟩

/-- Witness for C5: on the six-day run with `cool_off_period = 1`, the
decision loop buys stock 0 on days 3 and 4, and their gap respects the
cool-off period (`3 + 1 ≤ 4`). -/
theorem C5_witness :
    (⟨.buy, 3, 0, 30, some 3, some (-100)⟩ : LedgerEntry).day + 1 ≤
      (⟨.buy, 4, 0, 45, some 2, some (-100)⟩ : LedgerEntry).day := by
  have h1 : (momentum Psix .stochastic 2 (4/5) (1/5) 100 10 1).isSome = true := by
    with_unfolding_all rfl
  obtain ⟨st, hst⟩ := Option.isSome_iff_exists.1 h1
  have hled : st.ledger =
      [⟨.buy, 0, 0, 15, some 6, some (-100)⟩,
       ⟨.buy, 3, 0, 30, some 3, some (-100)⟩,
       ⟨.buy, 4, 0, 45, some 2, some (-100)⟩,
       ⟨.buy, 5, 0, 90, some 1, some (-100)⟩,
       ⟨.sell, 5, 0, 180, some 1, some 170⟩] := by
    have h2 : (momentum Psix .stochastic 2 (4/5) (1/5) 100 10 1).map
        RunState.ledger =
        some [⟨.buy, 0, 0, 15, some 6, some (-100)⟩,
          ⟨.buy, 3, 0, 30, some 3, some (-100)⟩,
          ⟨.buy, 4, 0, 45, some 2, some (-100)⟩,
          ⟨.buy, 5, 0, 90, some 1, some (-100)⟩,
          ⟨.sell, 5, 0, 180, some 1, some 170⟩] := by
      with_unfolding_all rfl
    rw [hst, Option.map_some'] at h2
    exact Option.some.inj h2
  exact C5_cool_off_enforcement Psix .stochastic 2 (4/5) (1/5) 100 10 1 st hst
    ⟨.buy, 3, 0, 30, some 3, some (-100)⟩ (by rw [hled]; simp)
    ⟨.buy, 4, 0, 45, some 2, some (-100)⟩ (by rw [hled]; simp)
    rfl rfl rfl (by norm_num) (by norm_num) (by norm_num)

/-- Counterexample for C5 as stated: quantified over all buy entries of
the ledger — including the day-0 buys made by `create_portfolio` — the
gap property fails.  On the five-day run with `cool_off_period = 10`, the
ledger holds a creation buy at day 0 and a decision-loop buy at day 3 for
the same stock, with gap `3 < 10`. -/
theorem C5_counterexample :
    ¬ (∀ (P : PriceData) (osc_type : OscType) (n : ℕ)
        (T_over T_under amount fees : ℚ) (cool_off_period : ℕ) (st : RunState),
        momentum P osc_type n T_over T_under amount fees cool_off_period =
          some st →
        ∀ e1 ∈ st.ledger, ∀ e2 ∈ st.ledger, e1.ttype = .buy → e2.ttype = .buy →
          e1.stock = e2.stock → e1.day < e2.day →
          e1.day + cool_off_period ≤ e2.day) := by
  intro h
  have h1 : (momentum Pfive .stochastic 2 (4/5) (1/5) 100 10 10).isSome = true := by
    with_unfolding_all rfl
  obtain ⟨st, hst⟩ := Option.isSome_iff_exists.1 h1
  have hled : st.ledger =
      [⟨.buy, 0, 0, 18, some 5, some (-100)⟩,
       ⟨.buy, 3, 0, 45, some 2, some (-100)⟩,
       ⟨.sell, 4, 0, 63, some 1, some 53⟩] := by
    have h2 : (momentum Pfive .stochastic 2 (4/5) (1/5) 100 10 10).map
        RunState.ledger =
        some [⟨.buy, 0, 0, 18, some 5, some (-100)⟩,
          ⟨.buy, 3, 0, 45, some 2, some (-100)⟩,
          ⟨.sell, 4, 0, 63, some 1, some 53⟩] := by
      with_unfolding_all rfl
    rw [hst, Option.map_some'] at h2
    exact Option.some.inj h2
  have h3 := h Pfive .stochastic 2 (4/5) (1/5) 100 10 10 st hst
    ⟨.buy, 0, 0, 18, some 5, some (-100)⟩ (by rw [hled]; simp)
    ⟨.buy, 3, 0, 45, some 2, some (-100)⟩ (by rw [hled]; simp)
    rfl rfl rfl (by norm_num)
  norm_num at h3

/-! ### Claim C3 — the undefined oscillator sentinel in Momentum -/

/-- Bound on decision-loop entries: the momentum loop never records an
entry for stock `s` on or after day `k + len(osc[s])` (the first day its
bounds check skips the stock, permanently). -/
theorem momStockStep_bound (P : PriceData) (osc : ℕ → List PyFloat) (k : ℕ)
    (T_over T_under amount fees : ℚ) (cool_off_period : ℕ) (s : ℕ)
    (trade_day stock_number : ℕ) (st st' : MomState) (htd : k ≤ trade_day)
    (hQ : ∀ e ∈ st.ledger, e.stock = s → 1 ≤ e.day →
      e.day < k + (osc s).length)
    (hstep : momStockStep P osc k T_over T_under amount fees cool_off_period
      trade_day stock_number st = some st') :
    ∀ e ∈ st'.ledger, e.stock = s → 1 ≤ e.day →
      e.day < k + (osc s).length := by
  unfold momStockStep at hstep
  split at hstep
  · cases hstep
    exact hQ
  · rename_i hguard
    simp only [] at hstep
    split at hstep
    · cases hstep
      rw [sell_eq]
      intro e he hs hd
      dsimp only at he
      rcases List.mem_append.1 he with he' | he'
      · exact hQ e he' hs hd
      · rw [List.mem_singleton.1 he'] at hs ⊢
        dsimp only at hs ⊢
        rw [← hs]
        omega
    · split at hstep
      · cases hb : buy trade_day stock_number amount P fees st.portfolio
            st.ledger with
        | none => rw [hb] at hstep; cases hstep
        | some r =>
          rw [hb, Option.map_some'] at hstep
          cases hstep
          obtain ⟨p, _hp, hled, _hpf⟩ := buy_eq_some _ _ _ _ _ _ _ _ hb
          intro e he hs hd
          dsimp only at he
          rw [hled] at he
          rcases List.mem_append.1 he with he' | he'
          · exact hQ e he' hs hd
          · rw [List.mem_singleton.1 he'] at hs ⊢
            dsimp only at hs ⊢
            rw [← hs]
            omega
      · cases hstep
        exact hQ

theorem momDayStep_bound (P : PriceData) (osc : ℕ → List PyFloat) (k : ℕ)
    (T_over T_under amount fees : ℚ) (cool_off_period : ℕ) (s : ℕ)
    (trade_day : ℕ) (st st' : MomState) (htd : k ≤ trade_day)
    (hQ : ∀ e ∈ st.ledger, e.stock = s → 1 ≤ e.day →
      e.day < k + (osc s).length)
    (hstep : momDayStep P osc k T_over T_under amount fees cool_off_period
      trade_day st = some st') :
    ∀ e ∈ st'.ledger, e.stock = s → 1 ≤ e.day →
      e.day < k + (osc s).length := by
  unfold momDayStep at hstep
  exact optFold_inv _
    (fun st0 => ∀ e ∈ st0.ledger, e.stock = s → 1 ≤ e.day →
      e.day < k + (osc s).length) _
    (fun i _ s1 s2 h1 h2 =>
      momStockStep_bound P osc k T_over T_under amount fees cool_off_period s
        trade_day i s1 s2 htd h1 h2)
    _ st' hQ hstep

theorem momLoop_bound (P : PriceData) (osc : ℕ → List PyFloat) (k : ℕ)
    (T_over T_under amount fees : ℚ) (cool_off_period : ℕ) (s : ℕ)
    (L : List ℕ) (hL : ∀ t ∈ L, k ≤ t) (st st' : MomState)
    (hQ : ∀ e ∈ st.ledger, e.stock = s → 1 ≤ e.day →
      e.day < k + (osc s).length)
    (hfold : optFold
      (momDayStep P osc k T_over T_under amount fees cool_off_period) L st =
      some st') :
    ∀ e ∈ st'.ledger, e.stock = s → 1 ≤ e.day →
      e.day < k + (osc s).length :=
  optFold_inv _
    (fun st0 => ∀ e ∈ st0.ledger, e.stock = s → 1 ≤ e.day →
      e.day < k + (osc s).length) L
    (fun t ht s1 s2 h1 h2 =>
      momDayStep_bound P osc k T_over T_under amount fees cool_off_period s t
        s1 s2 (hL t ht) h1 h2)
    st st' hQ hfold

/-- The terminal flush only adds sell entries dated on the final day. -/
theorem flushFold_entries (P : PriceData) (fees : ℚ) (Q : LedgerEntry → Prop) :
    ∀ (L : List ℕ) (st : RunState),
      (∀ e ∈ st.ledger, Q e ∨ (e.day = P.days - 1 ∧ e.ttype = .sell)) →
      ∀ e ∈ ((L.foldl (flushStep P fees) st).ledger),
        Q e ∨ (e.day = P.days - 1 ∧ e.ttype = .sell) := by
  intro L
  induction L with
  | nil => intro st h; exact h
  | cons t ts ih =>
    intro st h
    apply ih
    unfold flushStep
    split
    · rw [sell_eq]
      intro e he
      dsimp only at he
      rcases List.mem_append.1 he with he' | he'
      · exact h e he'
      · rw [List.mem_singleton.1 he']
        exact Or.inr ⟨rfl, rfl⟩
    · exact h

/-- C3, corrected: in the Momentum policy, a day on which a stock's raw
oscillator value is the undefined sentinel does NOT merely suppress
trading for that day.  The 3-day smoothing pass (`moving_average`) breaks
at the first NaN it meets, so a sentinel at raw index `j ≥ 2` truncates
the smoothed series to length `j - 2`; from price day `j + n - 1` — the
very day of the sentinel — onward, the bounds check skips the stock
permanently, exactly as for company failure.  Every ledger entry for that
stock is therefore either a day-0 creation buy, a decision-loop entry
strictly before day `j + n - 1`, or the terminal-flush sell on the final
day; trading never resumes. -/
theorem C3_sentinel_permanent (P : PriceData) (osc_type : OscType) (n : ℕ)
    (T_over T_under amount fees : ℚ) (cool_off_period : ℕ) (st : RunState)
    (hrun : momentum P osc_type n T_over T_under amount fees cool_off_period =
      some st)
    (s j : ℕ) (hj2 : 2 ≤ j)
    (hjlen : j ≤ (oscillator (column P s) n osc_type).length)
    (hnone : (oscillator (column P s) n osc_type).getD j none = none)
    (hfirst : ∀ l, l < j →
      (oscillator (column P s) n osc_type).getD l none ≠ none) :
    ∀ e ∈ st.ledger, e.stock = s → 1 ≤ e.day →
      e.day < j + n - 1 ∨ (e.day = P.days - 1 ∧ e.ttype = .sell) := by
  have hosclen : (moving_average (oscillator (column P s) n osc_type) 3 []).length =
      j - 2 := by
    have h := ma_length (oscillator (column P s) n osc_type) 3 j (by norm_num)
      (by omega) hjlen hnone (fun l _ hl => hfirst l hl)
    rw [h]
    omega
  rw [momentum] at hrun
  cases hcp : create_portfolio (fun _ => amount) P fees [] with
  | none => rw [hcp] at hrun; cases hrun
  | some pr =>
    rw [hcp] at hrun
    obtain ⟨st1, hfold, hflush⟩ := Option.map_eq_some'.1 hrun
    rw [rangeStep_one] at hfold
    have hday0 := create_portfolio_day0 _ _ _ _ hcp
    have hinit : ∀ e ∈ pr.2, e.stock = s → 1 ≤ e.day →
        e.day < (n + 3 - 2) +
          ((fun s0 => moving_average (oscillator (column P s0) n osc_type) 3 [])
            s).length := by
      intro e he _hs hd
      rw [hday0 e he] at hd
      omega
    have hloop := momLoop_bound P _ (n + 3 - 2) T_over T_under amount fees
      cool_off_period s _
      (fun t ht => rangeStepAux_mem 1 _ _ t ht)
      ⟨pr.1, fun _ => cool_off_period, pr.2⟩ st1 hinit hfold
    rw [← hflush]
    intro e he hs hd
    have hfl := flushFold_entries P fees
      (fun e0 => e0.stock = s → 1 ≤ e0.day → e0.day < j + n - 1)
      (List.range P.numStocks) ⟨st1.portfolio, st1.ledger⟩
      (by
        intro e0 he0
        left
        intro hs0 hd0
        have := hloop e0 he0 hs0 hd0
        simp only [hosclen] at this
        omega)
      e he
    rcases hfl with h | h
    · exact Or.inl (h hs hd)
    · exact Or.inr h

/-- Fixture for C3: nine prices with one flat step
(`price[2] = price[3]`), giving the 2-day stochastic oscillator a
zero-range window — the undefined sentinel — at raw index 2 (the window
ending at price day 3), with the stock never failing and the oscillator
defined on every other index.  The series is long enough that the
smoothed windows past the sentinel (raw indices 3-5, 4-6, 5-7, used on
trade days 6, 7, 8) are entirely sentinel-free. -/
def PflatStep : PriceData :=
  ⟨9, 1, fun d _ => some (([8, 7, 6, 6, 5, 4, 3, 2, 1] : List ℚ).getD d 0)⟩

/-- Fixture for C3: the same nine prices with only the day-2 price
changed (6 → 13/2), which removes the zero-range window and hence the
sentinel; the prices from day 3 onward are identical to `PflatStep`. -/
def PnoStep : PriceData :=
  ⟨9, 1, fun d _ => some (([8, 7, 13/2, 6, 5, 4, 3, 2, 1] : List ℚ).getD d 0)⟩

/-- Counterexample for C3 as stated: on `PflatStep`, stock 0 never fails
and its raw oscillator is the undefined sentinel exactly at index 2 (the
day-3 window) and defined on every later index.  The claim allows the
sentinel to suppress trading on its own day only — and, through the 3-day
smoothing, at most on days 3-5, whose smoothed windows contain it — and
asserts that trading resumes on later days where the smoothed indicator
is defined.  Days 6, 7, 8 are such days: their smoothing windows (raw
indices 3-5, 4-6, 5-7) hold no sentinel, the smoothing restarted after
the sentinel is everywhere defined and equal to 0 < T_under (third
conjunct), the cool-off period of 1 day cannot block a buy, and the
`PnoStep` run — which differs only in the day-2 price, removing the
sentinel — indeed buys on days 6, 7 and 8 (fifth conjunct).  Yet the
`PflatStep` run records no entry at all for the stock after day 0 except
the forced terminal flush on day 8 — in particular, no trade on days
6-8 (fourth conjunct).  The sentinel permanently disables the stock,
exactly like company failure; trading never resumes. -/
theorem C3_counterexample :
    (column PflatStep 0).all (fun v => !v.isNone) = true ∧
    oscillator (column PflatStep 0) 2 .stochastic =
      [some 0, some 0, none, some 0, some 0, some 0, some 0, some 0] ∧
    moving_average ((oscillator (column PflatStep 0) 2 .stochastic).drop 3)
      3 [] = [some 0, some 0, some 0] ∧
    (momentum PflatStep .stochastic 2 (4/5) (1/5) 100 10 1).map
      (fun st => st.ledger.map (fun e => (e.ttype, e.day, e.stock))) =
      some [(.buy, 0, 0), (.sell, 8, 0)] ∧
    (momentum PnoStep .stochastic 2 (4/5) (1/5) 100 10 1).map
      (fun st => st.ledger.map (fun e => (e.ttype, e.day, e.stock))) =
      some [(.buy, 0, 0), (.buy, 3, 0), (.buy, 4, 0), (.buy, 5, 0),
        (.buy, 6, 0), (.buy, 7, 0), (.buy, 8, 0), (.sell, 8, 0)] := by
  refine ⟨?_, ?_, ?_, ?_, ?_⟩
  · with_unfolding_all rfl
  · with_unfolding_all rfl
  · with_unfolding_all rfl
  · with_unfolding_all rfl
  · with_unfolding_all rfl

/-- Witness for the corrected C3: on the `PflatStep` run (sentinel at raw
index 2, window 2, so permanent skip from day `2 + 2 - 1 = 3`), the only
entry for stock 0 after day 0 is the terminal-flush sell on the final
day. -/
theorem C3_witness :
    (⟨.sell, 8, 0, 11, some 1, some 1⟩ : LedgerEntry).day < 2 + 2 - 1 ∨
    ((⟨.sell, 8, 0, 11, some 1, some 1⟩ : LedgerEntry).day = PflatStep.days - 1 ∧
      (⟨.sell, 8, 0, 11, some 1, some 1⟩ : LedgerEntry).ttype = .sell) := by
  have h1 : (momentum PflatStep .stochastic 2 (4/5) (1/5) 100 10 1).isSome =
      true := by
    with_unfolding_all rfl
  obtain ⟨st, hst⟩ := Option.isSome_iff_exists.1 h1
  have hled : st.ledger =
      [⟨.buy, 0, 0, 11, some 8, some (-98)⟩,
       ⟨.sell, 8, 0, 11, some 1, some 1⟩] := by
    have h2 : (momentum PflatStep .stochastic 2 (4/5) (1/5) 100 10 1).map
        RunState.ledger =
        some [⟨.buy, 0, 0, 11, some 8, some (-98)⟩,
          ⟨.sell, 8, 0, 11, some 1, some 1⟩] := by
      with_unfolding_all rfl
    rw [hst, Option.map_some'] at h2
    exact Option.some.inj h2
  have hosc : oscillator (column PflatStep 0) 2 .stochastic =
      [some 0, some 0, none, some 0, some 0, some 0, some 0, some 0] := by
    with_unfolding_all rfl
  exact C3_sentinel_permanent PflatStep .stochastic 2 (4/5) (1/5) 100 10 1 st
    hst 0 2 (by norm_num) (by rw [hosc]; norm_num) (by rw [hosc]; rfl)
    (by rw [hosc]; decide)
    ⟨.sell, 8, 0, 11, some 1, some 1⟩ (by rw [hled]; simp) rfl (by norm_num)
